import Mathlib

/-!
Verification of the persistence-abstraction core of hyperswitch:
the `Percentage<PRECISION>` validated value type (`crates/api_models/src/types.rs`)
and the key-value cache dispatcher (`crates/router/src/db.rs`).

Shallow embedding conventions:
  * Rust `f32` values produced by `str::parse::<f32>` are modelled as exact
    rationals (`ℚ`); the decimal-literal grammar of Rust's float parser is
    modelled by `parseDecimal` below.
  * `error_stack` reports are modelled as a context variant plus the list of
    printable attachments added along the way.
  * Strings are handled through their character lists (`String.data`).
-/

set_option autoImplicit false

/-- Error enum of the api_models crate.  Only the variant relevant to
`Percentage` appears in the sources under verification; `Other` stands for
the remaining variants of the Rust enum. -/
inductive ApiModelsError where
  | InvalidPercentageValue
  | Other
deriving DecidableEq, Repr

/-- An error_stack report: the current context together with the printable
attachments accumulated on the error path.  `change_context` replaces the
context and keeps attachments; `attach_printable` appends one. -/
structure ErrReport (E : Type) where
  context : E
  attachments : List String
deriving DecidableEq, Repr

/-- Percentage value type: wraps one numeric value, the const generic
`PRECISION : u8` is carried as a type-level parameter (here an ordinary
`Nat` argument, phantom at runtime exactly as in the Rust code). -/
structure Percentage (PRECISION : Nat) where
  percentage : ℚ
deriving DecidableEq, Repr

/-- Source `get_invalid_percentage_error_message`: the human-readable
message naming the configured precision. -/
def get_invalid_percentage_error_message (precision : Nat) : String :=
  "value should be a string representation float between 0 to 100 and precise to only upto "
    ++ toString precision ++ " decimal digits"

/-- Numeric value of a run of decimal digit characters (most significant
first), as Rust's float parser accumulates mantissa digits. -/
def digitsValue (l : List Char) : Nat :=
  l.foldl (fun a c => a * 10 + (c.toNat - 48)) 0

/-- Splits a character list at the first decimal point: returns the part
before the dot and, when a dot is present, the part after it. -/
def splitFrac : List Char → List Char × Option (List Char)
  | [] => ([], none)
  | c :: r =>
    if c = '.' then ([], some r)
    else
      let p := splitFrac r
      (c :: p.1, p.2)

/-- Splits a character list at the first exponent marker (`e` or `E`):
returns the mantissa part and, when a marker is present, the part after it. -/
def splitExp : List Char → List Char × Option (List Char)
  | [] => ([], none)
  | c :: r =>
    if c = 'e' ∨ c = 'E' then ([], some r)
    else
      let p := splitExp r
      (c :: p.1, p.2)

/-- Strips one optional sign character; returns whether the value is negated
and the remaining characters. -/
def stripSign (l : List Char) : Bool × List Char :=
  match l with
  | [] => (false, [])
  | c :: r =>
    if c = '-' then (true, r)
    else if c = '+' then (false, r)
    else (false, l)

/-- Mantissa grammar of a decimal literal: `digits`, `digits.digits`,
`digits.` or `.digits`; empty on both sides of the dot is rejected, as is
an entirely empty mantissa. -/
def parseMantissa (l : List Char) : Option ℚ :=
  match splitFrac l with
  | (w, none) =>
    if w ≠ [] ∧ w.all Char.isDigit then some (digitsValue w) else none
  | (w, some f) =>
    if (w ≠ [] ∨ f ≠ []) ∧ w.all Char.isDigit ∧ f.all Char.isDigit then
      some ((digitsValue w : ℚ) + (digitsValue f : ℚ) / (10 : ℚ) ^ f.length)
    else none

/-- Exponent grammar: an optional sign followed by a nonempty digit run. -/
def parseExpPart (l : List Char) : Option Int :=
  let p := stripSign l
  if p.2 ≠ [] ∧ p.2.all Char.isDigit then
    some (if p.1 then -(digitsValue p.2 : Int) else (digitsValue p.2 : Int))
  else none

/-- Modelled from the spec: Rust's `str::parse::<f32>` ("Parse text as a
floating-point number", spec 4.5 step 1), which lives in the standard
library and not under the sources being verified.  The finite decimal /
scientific-notation grammar is modelled exactly; the parsed value is kept
as an exact rational rather than rounded to binary floating point, and the
special forms `inf` / `NaN` (which can never yield a value inside `[0,100]`)
are modelled as parse failures. -/
def parseDecimal (s : String) : Option ℚ :=
  let p := stripSign s.data
  let q := splitExp p.2
  match parseMantissa q.1, (match q.2 with
    | none => some (0 : Int)
    | some el => parseExpPart el) with
  | some m, some e =>
    some ((if p.1 then (-1 : ℚ) else 1) * m * (10 : ℚ) ^ e)
  | _, _ => none

/-- Source `Percentage::is_valid_float_string`: parse the string, mapping a
parse failure to `InvalidPercentageValue` via `change_context` (no
printable attachment is added on this path). -/
def is_valid_float_string (value : String) : Except (ErrReport ApiModelsError) ℚ :=
  match parseDecimal value with
  | some q => .ok q
  | none => .error ⟨.InvalidPercentageValue, []⟩

/-- Source `Percentage::is_valid_range`: `(0.0..=100.0).contains(&value)`. -/
def is_valid_range (value : ℚ) : Bool :=
  decide (0 ≤ value) && decide (value ≤ 100)

/-- Rust `str::contains('.')` on the character list. -/
def containsDot (l : List Char) : Bool :=
  l.any (fun c => c = '.')

/-- Rust `value.split('.').last()`: the segment after the last dot (the
whole list when no dot occurs). -/
def afterLastDot (l : List Char) : List Char :=
  (l.reverse.takeWhile (fun c => decide (c ≠ '.'))).reverse

/-- Rust `str::trim_end_matches('0')`: drop trailing `'0'` characters. -/
def trimEndZeros (l : List Char) : List Char :=
  (l.reverse.dropWhile (fun c => c = '0')).reverse

/-- Source `Percentage::is_valid_precision_length`: when the string has a
dot, the segment after the last dot, with trailing zeros stripped, must be
no longer than `PRECISION`; a dot-free string is always valid. -/
def is_valid_precision_length (PRECISION : Nat) (value : String) : Bool :=
  if containsDot value.data then
    decide ((trimEndZeros (afterLastDot value.data)).length ≤ PRECISION)
  else true

/-- Source `Percentage::is_valid_string_value`: parse first (propagating a
parse failure with `?`), then conjoin range check and precision check. -/
def is_valid_string_value (PRECISION : Nat) (value : String) :
    Except (ErrReport ApiModelsError) Bool :=
  match is_valid_float_string value with
  | .error e => .error e
  | .ok float_value =>
    .ok (is_valid_range float_value && is_valid_precision_length PRECISION value)

/-- Source `Percentage::from_string`: validate, then parse again to build
the value; a validation `false` produces `InvalidPercentageValue` with the
precision message attached, while an error from the validation itself (a
parse failure) is propagated by `?` without that attachment. -/
def from_string (PRECISION : Nat) (value : String) :
    Except (ErrReport ApiModelsError) (Percentage PRECISION) :=
  match is_valid_string_value PRECISION value with
  | .error e => .error e
  | .ok true =>
    match parseDecimal value with
    | some q => .ok ⟨q⟩
    | none => .error ⟨.InvalidPercentageValue, []⟩
  | .ok false =>
    .error ⟨.InvalidPercentageValue, [get_invalid_percentage_error_message PRECISION]⟩

/-- Source `Percentage::get_percentage`. -/
def get_percentage {PRECISION : Nat} (p : Percentage PRECISION) : ℚ :=
  p.percentage

/-- JSON value model for the serde wire format consumed and produced by
`Percentage`. -/
inductive Json where
  | str (s : String)
  | num (q : ℚ)
  | jbool (b : Bool)
  | null
  | arr (items : List Json)
  | obj (entries : List (String × Json))

/-- serde decoding errors observable through the `Percentage` visitor. -/
inductive DeError where
  | duplicateField (field : String)
  | missingField (field : String)
  | invalidType (unexpected : String) (expected : String)
  | invalidValue (unexpected : String) (expected : String)
deriving DecidableEq, Repr

/-- serde `MapAccess::next_value::<String>()`: succeeds exactly on a JSON
string, any other value is a type error. -/
def nextValueString : Json → Except DeError String
  | .str s => .ok s
  | _ => .error (.invalidType "non-string value" "a string")

/-- Loop of `PercentageVisitor::visit_map`: walk the entries with the
`percentage_value` accumulator; a repeated `"percentage"` key is a
duplicate-field error, unrecognized keys are ignored, and at the end the
accumulated string (if any) goes through `from_string`, whose failure is
mapped to an invalid-value error naming the precision requirement. -/
def visit_map_entries (P : Nat) :
    List (String × Json) → Option String → Except DeError (Percentage P)
  | [], none => .error (.missingField "percentage")
  | [], some value =>
    match from_string P value with
    | .ok p => .ok p
    | .error _ =>
      .error (.invalidValue ("percentage value \"" ++ value ++ "\"")
        (get_invalid_percentage_error_message P))
  | (key, v) :: rest, acc =>
    if key = "percentage" then
      if acc.isSome then .error (.duplicateField "percentage")
      else
        match nextValueString v with
        | .ok s => visit_map_entries P rest (some s)
        | .error e => .error e
    else
      visit_map_entries P rest acc

/-- Source `PercentageVisitor::visit_map`, starting with no accumulated
value. -/
def visit_map (P : Nat) (entries : List (String × Json)) :
    Except DeError (Percentage P) :=
  visit_map_entries P entries none

/-- Source `Deserialize for Percentage`: `deserialize_map` hands objects to
the visitor; any non-map input is a type error. -/
def deserializePercentage (P : Nat) : Json → Except DeError (Percentage P)
  | .obj entries => visit_map P entries
  | _ => .error (.invalidType "non-map value" "Percentage object")

/-- Source derived `serde::Serialize` for `Percentage`: emits an object
whose single field `"percentage"` holds the numeric value directly. -/
def serializePercentage {P : Nat} (p : Percentage P) : Json :=
  .obj [("percentage", .num p.percentage)]

/-- Modelled from the spec: the error enum of the redis_interface crate
(not under the sources being verified); only the variants named by the
spec's error taxonomy are listed, `OtherError` stands for the rest. -/
inductive RedisError where
  | NotFound
  | JsonDeserializationFailed
  | RedisConnectionError
  | UnknownResult
  | OtherError
deriving DecidableEq, Repr

/-- Modelled from the spec: the existence-reply of a whole-key
set-if-absent ("created vs already-existed"). -/
inductive SetnxReply where
  | KeySet
  | KeyNotSet
deriving DecidableEq, Repr

/-- Modelled from the spec: the existence-reply of a hash-field
set-if-absent. -/
inductive HsetnxReply where
  | KeySet
  | KeyNotSet
deriving DecidableEq, Repr

/-- Source `KvOperation<'a, S>`: the closed set of cache operations. -/
inductive KvOperation (S : Type) where
  | Hset (value : String × String)
  | SetNx (value : S)
  | HSetNx (field : String) (value : S)
  | Get (field : String)
  | Scan (pattern : String)

/-- Source `KvResult<T>`: the result union mirroring the request. -/
inductive KvResult (T : Type) where
  | Get (value : T)
  | Hset (u : Unit)
  | SetNx (reply : SetnxReply)
  | HSetNx (reply : HsetnxReply)
  | Scan (values : List T)

/-- Modelled from the spec: the fixed expiry constant `consts::KV_TTL` of
the router crate (its consts module is not under the sources being
verified); the spec fixes only that one constant duration is applied to
every write, so the numeric value is arbitrary here. -/
def KV_TTL : Nat := 900

/-- One key-value engine invocation issued by the dispatcher, with every
argument the dispatcher passes (in particular the expiry). -/
inductive EngineCall (S : Type) where
  | set_hash_fields (key : String) (value : String × String) (ttl : Option Nat)
  | get_hash_field_and_deserialize (key field type_name : String)
  | hscan_and_deserialize (key pattern : String) (count : Option Nat)
  | serialize_and_set_hash_field_if_not_exist
      (key field : String) (value : S) (ttl : Option Nat)
  | serialize_and_set_key_if_not_exist (key : String) (value : S) (ttl : Option Int)

/-- Modelled from the spec: the key-value engine connection handle
(redis_interface crate, not under the sources being verified).  Each method
is an oracle giving the engine's outcome for the corresponding call; the
dispatcher's behaviour is verified for every oracle. -/
structure RedisConn (T S : Type) where
  set_hash_fields :
    String → String × String → Option Nat → Except RedisError Unit
  get_hash_field_and_deserialize :
    String → String → String → Except RedisError T
  hscan_and_deserialize :
    String → String → Option Nat → Except RedisError (List T)
  serialize_and_set_hash_field_if_not_exist :
    String → String → S → Option Nat → Except RedisError HsetnxReply
  serialize_and_set_key_if_not_exist :
    String → S → Option Int → Except RedisError SetnxReply

/-- The `Store` backend as the dispatcher sees it: a cache-connection
acquisition that may fail with a connection error. -/
structure Store (T S : Type) where
  get_redis_conn : Except RedisError (RedisConn T S)

/-- Source `kv_wrapper`: acquire the connection, dispatch strictly on the
operation tag, apply `KV_TTL` to every write, and tag the result to match
the request.  Alongside the result, the embedding records the list of
engine calls issued, so that the arguments handed to the engine (notably
the expiry) are observable. -/
def kv_wrapper {T S : Type} (store : Store T S) (op : KvOperation S) (key : String)
    (type_name : String) :
    Except RedisError (KvResult T) × List (EngineCall S) :=
  match store.get_redis_conn with
  | .error e => (.error e, [])
  | .ok redis_conn =>
    match op with
    | .Hset value =>
      (match redis_conn.set_hash_fields key value (some KV_TTL) with
        | .error e => .error e
        | .ok _ => .ok (.Hset ()),
       [.set_hash_fields key value (some KV_TTL)])
    | .Get field =>
      (match redis_conn.get_hash_field_and_deserialize key field type_name with
        | .error e => .error e
        | .ok result => .ok (.Get result),
       [.get_hash_field_and_deserialize key field type_name])
    | .Scan pattern =>
      (match redis_conn.hscan_and_deserialize key pattern none with
        | .error e => .error e
        | .ok result => .ok (.Scan result),
       [.hscan_and_deserialize key pattern none])
    | .HSetNx field value =>
      (match redis_conn.serialize_and_set_hash_field_if_not_exist key field value
          (some KV_TTL) with
        | .error e => .error e
        | .ok result => .ok (.HSetNx result),
       [.serialize_and_set_hash_field_if_not_exist key field value (some KV_TTL)])
    | .SetNx value =>
      (match redis_conn.serialize_and_set_key_if_not_exist key value
          (some (KV_TTL : Int)) with
        | .error e => .error e
        | .ok result => .ok (.SetNx result),
       [.serialize_and_set_key_if_not_exist key value (some (KV_TTL : Int))])

/-- The one-to-one operation/result variant correspondence of the
dispatcher. -/
def opResultMatch {T S : Type} : KvOperation S → KvResult T → Prop
  | .Hset _, .Hset _ => True
  | .Get _, .Get _ => True
  | .Scan _, .Scan _ => True
  | .SetNx _, .SetNx _ => True
  | .HSetNx _ _, .HSetNx _ => True
  | _, _ => False

/-- Whether an engine call carries the fixed expiry on its write variants
(read variants carry no expiry argument at all). -/
def appliesKvTtl {S : Type} : EngineCall S → Prop
  | .set_hash_fields _ _ ttl => ttl = some KV_TTL
  | .serialize_and_set_hash_field_if_not_exist _ _ _ ttl => ttl = some KV_TTL
  | .serialize_and_set_key_if_not_exist _ _ ttl => ttl = some (KV_TTL : Int)
  | _ => True

/-- A concrete engine connection whose oracles always succeed, used to
instantiate the dispatcher theorems. -/
def exConn : RedisConn Nat Nat where
  set_hash_fields := fun _ _ _ => .ok ()
  get_hash_field_and_deserialize := fun _ _ _ => .ok 7
  hscan_and_deserialize := fun _ _ _ => .ok [7]
  serialize_and_set_hash_field_if_not_exist := fun _ _ _ _ => .ok .KeySet
  serialize_and_set_key_if_not_exist := fun _ _ _ => .ok .KeySet

/-- A concrete store built on `exConn`. -/
def exStore : Store Nat Nat :=
  ⟨.ok exConn⟩

/-- Modelled from the spec: the parsing-error context of the common_utils
crate (not under the sources being verified). -/
inductive ParsingError where
  | StructParseFailure
deriving DecidableEq, Repr

/-- The `StorageInterface` facade as `get_and_deserialize_key` sees it:
a raw-bytes fetch per key (bytes modelled as strings), together with the
serde decoding of the caller's target type `T` (an oracle, since `T` and
its decoder are caller-supplied). -/
structure StorageInterface (T : Type) where
  get_key : String → Except (ErrReport RedisError) String
  parse : String → Option T

/-- Modelled from the spec: `ByteSliceExt::parse_struct` of the
common_utils crate (not under the sources being verified): deserialize the
bytes, attaching a diagnostic naming the supplied type to any failure. -/
def parse_struct {T : Type} (parse : String → Option T) (bytes : String)
    (type_name : String) : Except (ErrReport ParsingError) T :=
  match parse bytes with
  | some t => .ok t
  | none => .error ⟨.StructParseFailure, ["Unable to parse " ++ type_name]⟩

/-- Source `get_and_deserialize_key`: fetch the raw bytes (propagating any
fetch error with `?`), then parse them, converting a parse failure into
`JsonDeserializationFailed` while keeping its attachments. -/
def get_and_deserialize_key {T : Type} (db : StorageInterface T) (key : String)
    (type_name : String) : Except (ErrReport RedisError) T :=
  match db.get_key key with
  | .error e => .error e
  | .ok bytes =>
    match parse_struct db.parse bytes type_name with
    | .ok t => .ok t
    | .error pe => .error ⟨.JsonDeserializationFailed, pe.attachments⟩

/-- A facade whose key fetch always reports the engine's not-found
signal. -/
def dbNotFound : StorageInterface Nat :=
  ⟨fun _ => .error ⟨.NotFound, []⟩, fun _ => none⟩

/-- A facade whose stored bytes never parse as the target type. -/
def dbBadBytes : StorageInterface Nat :=
  ⟨fun _ => .ok "xx", fun _ => none⟩

/-- A facade whose stored bytes parse successfully. -/
def dbGood : StorageInterface Nat :=
  ⟨fun _ => .ok "7", fun _ => some 7⟩

/-- Digit characters differ from any concrete non-digit character. -/
theorem ne_of_isDigit {c d : Char} (h : c.isDigit = true) (hd : d.isDigit = false) :
    c ≠ d := by
  intro he
  rw [he, hd] at h
  exact Bool.false_ne_true h

/-- Lists free of exponent markers are untouched by `splitExp`. -/
theorem splitExp_no_marker {l : List Char} (h : ∀ c ∈ l, c ≠ 'e' ∧ c ≠ 'E') :
    splitExp l = (l, none) := by
  induction l with
  | nil => rfl
  | cons c r ih =>
    have hc := h c (List.mem_cons_self c r)
    have hr : ∀ x ∈ r, x ≠ 'e' ∧ x ≠ 'E' := fun x hx => h x (List.mem_cons_of_mem c hx)
    simp [splitExp, hc.1, hc.2, ih hr]

/-- Lists free of dots are untouched by `splitFrac`. -/
theorem splitFrac_no_dot {l : List Char} (h : ∀ c ∈ l, c ≠ '.') :
    splitFrac l = (l, none) := by
  induction l with
  | nil => rfl
  | cons c r ih =>
    have hc := h c (List.mem_cons_self c r)
    have hr : ∀ x ∈ r, x ≠ '.' := fun x hx => h x (List.mem_cons_of_mem c hx)
    simp [splitFrac, hc, ih hr]

/-- `splitFrac` splits a dot-free prefix from the part after the first dot. -/
theorem splitFrac_append {ip fp : List Char} (h : ∀ c ∈ ip, c ≠ '.') :
    splitFrac (ip ++ '.' :: fp) = (ip, some fp) := by
  induction ip with
  | nil => simp [splitFrac]
  | cons c r ih =>
    have hc := h c (List.mem_cons_self c r)
    have hr : ∀ x ∈ r, x ≠ '.' := fun x hx => h x (List.mem_cons_of_mem c hx)
    simp [splitFrac, hc, ih hr]

/-- A leading digit is not consumed as a sign. -/
theorem stripSign_of_digit {c : Char} {r : List Char} (h : c.isDigit = true) :
    stripSign (c :: r) = (false, c :: r) := by
  have h1 : c ≠ '-' := ne_of_isDigit h (by decide)
  have h2 : c ≠ '+' := ne_of_isDigit h (by decide)
  simp [stripSign, h1, h2]

/-- `takeWhile` of a satisfying run followed by a failing element. -/
theorem takeWhile_append_of_all {p : Char → Bool} {a : List Char} {b : Char} {t : List Char}
    (ha : ∀ c ∈ a, p c = true) (hb : p b = false) :
    (a ++ b :: t).takeWhile p = a := by
  induction a with
  | nil => simp [List.takeWhile_cons, hb]
  | cons c r ih =>
    have hc := ha c (List.mem_cons_self c r)
    have hr : ∀ x ∈ r, p x = true := fun x hx => ha x (List.mem_cons_of_mem c hx)
    simp [List.takeWhile_cons, hc, ih hr]

/-- A dot-free list reports no dot. -/
theorem containsDot_false {l : List Char} (h : ∀ c ∈ l, c ≠ '.') :
    containsDot l = false := by
  simp only [containsDot, List.any_eq_false, decide_eq_true_eq]
  exact h

/-- A list with an explicit dot reports one. -/
theorem containsDot_append_true (ip fp : List Char) :
    containsDot (ip ++ '.' :: fp) = true := by
  simp only [containsDot, List.any_eq_true]
  exact ⟨'.', by simp, by simp⟩

/-- The segment after the last dot of `ip.fp` is `fp` when `fp` is dot-free. -/
theorem afterLastDot_append {ip fp : List Char} (hfp : ∀ c ∈ fp, c ≠ '.') :
    afterLastDot (ip ++ '.' :: fp) = fp := by
  unfold afterLastDot
  have hrev : (ip ++ '.' :: fp).reverse = fp.reverse ++ '.' :: ip.reverse := by
    simp [List.reverse_append]
  rw [hrev, takeWhile_append_of_all, List.reverse_reverse]
  · intro c hc
    simp only [decide_eq_true_eq]
    exact hfp c (List.mem_reverse.mp hc)
  · decide

/-- Characters of a plain decimal string are neither exponent markers nor signs. -/
theorem no_marker_of_plain {ip fp : List Char}
    (h2 : ∀ c ∈ ip, c.isDigit = true) (h3 : ∀ c ∈ fp, c.isDigit = true) :
    ∀ c ∈ ip ++ '.' :: fp, c ≠ 'e' ∧ c ≠ 'E' := by
  intro c hc
  rcases List.mem_append.mp hc with hip | hdot
  · exact ⟨ne_of_isDigit (h2 c hip) (by decide), ne_of_isDigit (h2 c hip) (by decide)⟩
  · rcases List.mem_cons.mp hdot with rfl | hfp
    · exact ⟨by decide, by decide⟩
    · exact ⟨ne_of_isDigit (h3 c hfp) (by decide), ne_of_isDigit (h3 c hfp) (by decide)⟩

/-- Evaluation of the modelled float parser on a plain decimal string
`ip.fp` (or `ip` when `fp` is empty) built from digit runs. -/
theorem parseDecimal_plain (ip fp : List Char) (h1 : ip ≠ [])
    (h2 : ∀ c ∈ ip, c.isDigit = true) (h3 : ∀ c ∈ fp, c.isDigit = true) :
    parseDecimal (String.mk (ip ++ if fp = [] then [] else '.' :: fp)) =
      some ((digitsValue ip : ℚ) + (digitsValue fp : ℚ) / (10 : ℚ) ^ fp.length) := by
  obtain ⟨c, r, rfl⟩ : ∃ c r, ip = c :: r := by
    cases ip with
    | nil => exact absurd rfl h1
    | cons c r => exact ⟨c, r, rfl⟩
  have hc := h2 c (List.mem_cons_self c r)
  by_cases hfp : fp = []
  · subst hfp
    simp only [if_pos rfl, List.append_nil]
    have hstrip : stripSign (String.mk (c :: r)).data = (false, c :: r) :=
      stripSign_of_digit hc
    have hexp : splitExp (c :: r) = (c :: r, none) := by
      apply splitExp_no_marker
      intro x hx
      exact ⟨ne_of_isDigit (h2 x hx) (by decide), ne_of_isDigit (h2 x hx) (by decide)⟩
    have hman : parseMantissa (c :: r) = some (digitsValue (c :: r)) := by
      have hnd : splitFrac (c :: r) = (c :: r, none) := by
        apply splitFrac_no_dot
        intro x hx
        exact ne_of_isDigit (h2 x hx) (by decide)
      simp [parseMantissa, hnd, List.all_eq_true.mpr h2]
    simp [parseDecimal, hstrip, hexp, hman, digitsValue]
  · simp only [if_neg hfp]
    have hstrip : stripSign (c :: (r ++ '.' :: fp)) = (false, c :: (r ++ '.' :: fp)) :=
      stripSign_of_digit hc
    have hexp : splitExp (c :: (r ++ '.' :: fp)) = (c :: (r ++ '.' :: fp), none) := by
      apply splitExp_no_marker
      intro x hx
      have : x ∈ (c :: r) ++ '.' :: fp := by simpa using hx
      exact no_marker_of_plain h2 h3 x this
    have hman : parseMantissa (c :: (r ++ '.' :: fp)) =
        some ((digitsValue (c :: r) : ℚ) + (digitsValue fp : ℚ) / (10 : ℚ) ^ fp.length) := by
      have hsf : splitFrac ((c :: r) ++ '.' :: fp) = (c :: r, some fp) := by
        apply splitFrac_append
        intro x hx
        exact ne_of_isDigit (h2 x hx) (by decide)
      have hsf' : splitFrac (c :: (r ++ '.' :: fp)) = (c :: r, some fp) := by
        simpa using hsf
      simp [parseMantissa, hsf', List.all_eq_true.mpr h2, List.all_eq_true.mpr h3]
    simp [parseDecimal, hstrip, hexp, hman]

/-- A rational strictly between 0 and 1 is not an integer. -/
theorem not_int_of_pos_lt_one {q : ℚ} (h0 : 0 < q) (h1 : q < 1) :
    ¬ ∃ n : ℤ, q = (n : ℚ) := by
  rintro ⟨n, rfl⟩
  have hn0 : (0 : ℤ) < n := by exact_mod_cast h0
  have hn1 : n < 1 := by exact_mod_cast h1
  omega

/-- Strings whose parsed value fails the range check are rejected with the
validation error carrying the precision message. -/
theorem from_string_err_of_out_of_range (P : Nat) (s : String) (x : ℚ)
    (hx : parseDecimal s = some x) (hout : x < 0 ∨ 100 < x) :
    from_string P s =
      .error ⟨.InvalidPercentageValue, [get_invalid_percentage_error_message P]⟩ := by
  have hr : is_valid_range x = false := by
    rcases hout with h | h
    · simp only [is_valid_range, Bool.and_eq_false_iff, decide_eq_false_iff_not, not_le]
      exact Or.inl h
    · simp only [is_valid_range, Bool.and_eq_false_iff, decide_eq_false_iff_not, not_le]
      exact Or.inr h
  simp [from_string, is_valid_string_value, is_valid_float_string, hx, hr]

/-- Parsing and both checks passing makes `from_string` succeed with the
parsed value. -/
theorem from_string_ok_of_checks (P : Nat) (s : String) (x : ℚ)
    (hx : parseDecimal s = some x) (hr : is_valid_range x = true)
    (hp : is_valid_precision_length P s = true) :
    from_string P s = .ok ⟨x⟩ := by
  simp [from_string, is_valid_string_value, is_valid_float_string, hx, hr, hp]

/-- Entries without the `"percentage"` key are all ignored by the visitor
loop. -/
theorem visit_map_entries_skip (P : Nat) (entries : List (String × Json))
    (acc : Option String) (h : ∀ kv ∈ entries, kv.1 ≠ "percentage") :
    visit_map_entries P entries acc = visit_map_entries P [] acc := by
  induction entries with
  | nil => rfl
  | cons kv rest ih =>
    cases kv with
    | mk k v =>
      have h1 : k ≠ "percentage" := h (k, v) (List.mem_cons_self (k, v) rest)
      have hr : ∀ kv ∈ rest, kv.1 ≠ "percentage" :=
        fun kv hkv => h kv (List.mem_cons_of_mem (k, v) hkv)
      simp [visit_map_entries, h1, ih hr]

/-- The visitor loop depends only on the `"percentage"` entries. -/
theorem visit_map_entries_filter (P : Nat) (entries : List (String × Json))
    (acc : Option String) :
    visit_map_entries P entries acc =
      visit_map_entries P
        (entries.filter (fun kv => decide (kv.1 = "percentage"))) acc := by
  induction entries generalizing acc with
  | nil => rfl
  | cons kv rest ih =>
    cases kv with
    | mk k v =>
      by_cases hk : k = "percentage"
      · subst hk
        rw [show List.filter (fun kv => decide (kv.1 = "percentage"))
              (("percentage", v) :: rest) =
            ("percentage", v) ::
              List.filter (fun kv => decide (kv.1 = "percentage")) rest by
          simp [List.filter_cons]]
        cases acc with
        | none =>
          cases hnv : nextValueString v with
          | ok s => simp [visit_map_entries, hnv, ih]
          | error e => simp [visit_map_entries, hnv]
        | some a => simp [visit_map_entries]
      · simp [visit_map_entries, hk, List.filter_cons, ih acc]

/-- C1: whenever the dispatcher returns a successful result, its variant
corresponds one-to-one to the requested operation's variant; no other
pairing is ever returned. -/
theorem c1_result_matches_operation {T S : Type} (store : Store T S) (op : KvOperation S)
    (key type_name : String) (r : KvResult T)
    (h : (kv_wrapper store op key type_name).1 = .ok r) :
    opResultMatch op r := by
  cases hc : store.get_redis_conn with
  | error e => simp [kv_wrapper, hc] at h
  | ok conn =>
    cases op with
    | Hset value =>
      cases he : conn.set_hash_fields key value (some KV_TTL) with
      | error e => simp [kv_wrapper, hc, he] at h
      | ok u =>
        simp [kv_wrapper, hc, he] at h
        subst h
        simp [opResultMatch]
    | Get field =>
      cases he : conn.get_hash_field_and_deserialize key field type_name with
      | error e => simp [kv_wrapper, hc, he] at h
      | ok result =>
        simp [kv_wrapper, hc, he] at h
        subst h
        simp [opResultMatch]
    | Scan pattern =>
      cases he : conn.hscan_and_deserialize key pattern none with
      | error e => simp [kv_wrapper, hc, he] at h
      | ok result =>
        simp [kv_wrapper, hc, he] at h
        subst h
        simp [opResultMatch]
    | HSetNx field value =>
      cases he : conn.serialize_and_set_hash_field_if_not_exist key field value
          (some KV_TTL) with
      | error e => simp [kv_wrapper, hc, he] at h
      | ok result =>
        simp [kv_wrapper, hc, he] at h
        subst h
        simp [opResultMatch]
    | SetNx value =>
      cases he : conn.serialize_and_set_key_if_not_exist key value
          (some (KV_TTL : Int)) with
      | error e => simp [kv_wrapper, hc, he] at h
      | ok result =>
        simp [kv_wrapper, hc, he] at h
        subst h
        simp [opResultMatch]

/-- Witness for C1 on the concrete store `exStore` with a `Get` request. -/
theorem c1_witness : opResultMatch (KvOperation.Get (S := Nat) "f") (KvResult.Get 7) :=
  c1_result_matches_operation exStore (.Get "f") "k" "T" (.Get 7) rfl

/-- C2: every engine call the dispatcher issues carries the fixed expiry
`KV_TTL` on its write variants, and each of the three write operations
issues exactly one engine call, with `some KV_TTL` as its expiry argument;
`KvOperation` itself has no expiry parameter, so no caller can override
it. -/
theorem c2_writes_apply_fixed_ttl {T S : Type} (store : Store T S)
    (key type_name : String) :
    (∀ (op : KvOperation S) (c : EngineCall S),
      c ∈ (kv_wrapper (T := T) store op key type_name).2 → appliesKvTtl c) ∧
    (∀ conn : RedisConn T S, store.get_redis_conn = .ok conn →
      (∀ v, (kv_wrapper (T := T) store (.Hset v) key type_name).2 =
        [.set_hash_fields key v (some KV_TTL)]) ∧
      (∀ x, (kv_wrapper (T := T) store (.SetNx x) key type_name).2 =
        [.serialize_and_set_key_if_not_exist key x (some (KV_TTL : Int))]) ∧
      (∀ f x, (kv_wrapper (T := T) store (.HSetNx f x) key type_name).2 =
        [.serialize_and_set_hash_field_if_not_exist key f x (some KV_TTL)])) := by
  constructor
  · intro op c hc
    cases hcon : store.get_redis_conn with
    | error e => simp [kv_wrapper, hcon] at hc
    | ok conn =>
      cases op with
      | Hset value =>
        simp [kv_wrapper, hcon] at hc
        subst hc
        simp [appliesKvTtl]
      | Get field =>
        simp [kv_wrapper, hcon] at hc
        subst hc
        simp [appliesKvTtl]
      | Scan pattern =>
        simp [kv_wrapper, hcon] at hc
        subst hc
        simp [appliesKvTtl]
      | HSetNx field value =>
        simp [kv_wrapper, hcon] at hc
        subst hc
        simp [appliesKvTtl]
      | SetNx value =>
        simp [kv_wrapper, hcon] at hc
        subst hc
        simp [appliesKvTtl]
  · intro conn hcon
    exact ⟨fun v => by simp [kv_wrapper, hcon],
      fun x => by simp [kv_wrapper, hcon],
      fun f x => by simp [kv_wrapper, hcon]⟩

/-- Witness for C2 on the concrete store `exStore`. -/
theorem c2_witness :
    (kv_wrapper (T := Nat) exStore (.Hset ("f", "x")) "k" "T").2 =
      [.set_hash_fields "k" ("f", "x") (some KV_TTL)] ∧
    (kv_wrapper (T := Nat) exStore (.SetNx 5) "k" "T").2 =
      [.serialize_and_set_key_if_not_exist "k" 5 (some (KV_TTL : Int))] ∧
    (kv_wrapper (T := Nat) exStore (.HSetNx "f" 5) "k" "T").2 =
      [.serialize_and_set_hash_field_if_not_exist "k" "f" 5 (some KV_TTL)] := by
  have h := (c2_writes_apply_fixed_ttl (T := Nat) exStore "k" "T").2 exConn rfl
  exact ⟨h.1 ("f", "x"), h.2.1 5, h.2.2 "f" 5⟩

/-- C3: decoding behaviour of the `Percentage` map visitor for precision at
least 1: `{"percentage":"50.5"}` decodes to 50.5; a second `"percentage"`
entry is a duplicate-field error; a map with no `"percentage"` key is a
missing-field error; `{"percentage":"150"}` is the validation error; and
entries under unrecognized keys never affect the outcome. -/
theorem c3_visit_map_behaviour (P : Nat) (hP : 1 ≤ P) :
    deserializePercentage P (.obj [("percentage", .str "50.5")]) = .ok ⟨101 / 2⟩ ∧
    (∀ (a : String) (v : Json) (rest : List (String × Json)),
      deserializePercentage P
          (.obj (("percentage", .str a) :: ("percentage", v) :: rest)) =
        .error (.duplicateField "percentage")) ∧
    (∀ entries : List (String × Json), (∀ kv ∈ entries, kv.1 ≠ "percentage") →
      deserializePercentage P (.obj entries) = .error (.missingField "percentage")) ∧
    deserializePercentage P (.obj [("percentage", .str "150")]) =
      .error (.invalidValue "percentage value \"150\""
        (get_invalid_percentage_error_message P)) ∧
    (∀ entries : List (String × Json),
      deserializePercentage P (.obj entries) =
        deserializePercentage P
          (.obj (entries.filter (fun kv => decide (kv.1 = "percentage"))))) := by
  have hok : from_string P "50.5" = .ok ⟨101 / 2⟩ := by
    have hx : parseDecimal "50.5" = some (101 / 2) := by
      simp +decide [parseDecimal, splitExp, stripSign, parseMantissa, splitFrac, digitsValue]
      norm_num
    have hr : is_valid_range (101 / 2) = true := by
      simp only [is_valid_range, Bool.and_eq_true, decide_eq_true_eq]
      norm_num
    have hp2 : is_valid_precision_length P "50.5" = true := by
      have h1 : containsDot "50.5".data = true := by decide
      have h2 : trimEndZeros (afterLastDot "50.5".data) = ['5'] := by decide
      simp [is_valid_precision_length, h1, h2, hP]
    exact from_string_ok_of_checks P "50.5" (101 / 2) hx hr hp2
  have h150 : from_string P "150" =
      .error ⟨.InvalidPercentageValue, [get_invalid_percentage_error_message P]⟩ := by
    apply from_string_err_of_out_of_range P "150" 150
    · simp +decide [parseDecimal, splitExp, stripSign, parseMantissa, splitFrac, digitsValue]
    · norm_num
  refine ⟨?_, ?_, ?_, ?_, ?_⟩
  · simp [deserializePercentage, visit_map, visit_map_entries, nextValueString, hok]
  · intro a v rest
    simp [deserializePercentage, visit_map, visit_map_entries, nextValueString]
  · intro entries h
    have := visit_map_entries_skip P entries none h
    simp [deserializePercentage, visit_map, this, visit_map_entries]
  · simp [deserializePercentage, visit_map, visit_map_entries, nextValueString, h150]
  · intro entries
    simp [deserializePercentage, visit_map, visit_map_entries_filter P entries none]

/-- Witness for C3 at `PRECISION = 1` with concrete maps. -/
theorem c3_witness :
    deserializePercentage 1 (.obj [("percentage", .str "50.5")]) = .ok ⟨101 / 2⟩ ∧
    deserializePercentage 1 (.obj [("other", .num 3)]) =
      .error (.missingField "percentage") ∧
    deserializePercentage 1
        (.obj [("percentage", .str "50.5"), ("percentage", .str "1")]) =
      .error (.duplicateField "percentage") := by
  refine ⟨(c3_visit_map_behaviour 1 le_rfl).1, ?_, ?_⟩
  · exact (c3_visit_map_behaviour 1 le_rfl).2.2.1 [("other", .num 3)] (by decide)
  · exact (c3_visit_map_behaviour 1 le_rfl).2.1 "50.5" (.str "1") []

/-- C4: for every decimal string built from an integer digit run `ip` and a
fractional digit run `fp` (written `ip.fp`, or just `ip` when `fp` is empty)
whose value lies in `[0, 100]` and whose fractional part has at most
`PRECISION` digits once trailing zeros are excluded, `from_string` succeeds
and `get_percentage` returns exactly that value. -/
theorem c4_from_string_plain_decimal (P : Nat) (ip fp : List Char) (h1 : ip ≠ [])
    (h2 : ∀ c ∈ ip, c.isDigit = true) (h3 : ∀ c ∈ fp, c.isDigit = true)
    (hrange : (digitsValue ip : ℚ) + (digitsValue fp : ℚ) / (10 : ℚ) ^ fp.length ≤ 100)
    (hprec : (trimEndZeros fp).length ≤ P) :
    from_string P (String.mk (ip ++ if fp = [] then [] else '.' :: fp)) =
      .ok ⟨(digitsValue ip : ℚ) + (digitsValue fp : ℚ) / (10 : ℚ) ^ fp.length⟩ ∧
    get_percentage
        (⟨(digitsValue ip : ℚ) + (digitsValue fp : ℚ) / (10 : ℚ) ^ fp.length⟩ :
          Percentage P) =
      (digitsValue ip : ℚ) + (digitsValue fp : ℚ) / (10 : ℚ) ^ fp.length := by
  have hparse := parseDecimal_plain ip fp h1 h2 h3
  have hx0 : (0 : ℚ) ≤ (digitsValue ip : ℚ) + (digitsValue fp : ℚ) / (10 : ℚ) ^ fp.length := by
    positivity
  have hrangeb :
      is_valid_range ((digitsValue ip : ℚ) + (digitsValue fp : ℚ) / (10 : ℚ) ^ fp.length) =
        true := by
    simp only [is_valid_range, Bool.and_eq_true, decide_eq_true_eq]
    exact ⟨hx0, hrange⟩
  have hprecb :
      is_valid_precision_length P (String.mk (ip ++ if fp = [] then [] else '.' :: fp)) =
        true := by
    by_cases hfp : fp = []
    · subst hfp
      have hnd : containsDot ip = false :=
        containsDot_false (fun c hc => ne_of_isDigit (h2 c hc) (by decide))
      simp [is_valid_precision_length, hnd]
    · have hdot : containsDot (ip ++ '.' :: fp) = true := containsDot_append_true ip fp
      have hald : afterLastDot (ip ++ '.' :: fp) = fp :=
        afterLastDot_append (fun c hc => ne_of_isDigit (h3 c hc) (by decide))
      simp [is_valid_precision_length, hfp, hdot, hald, hprec]
  refine ⟨?_, rfl⟩
  simp [from_string, is_valid_string_value, is_valid_float_string, hparse, hrangeb, hprecb]

/-- Witness for C4 at the concrete input `"50.5"` with `PRECISION = 1`. -/
theorem c4_witness : from_string 1 "50.5" = .ok ⟨101 / 2⟩ := by
  have h := (c4_from_string_plain_decimal 1 ['5', '0'] ['5'] (by decide)
    (by decide) (by decide)
    (by norm_num [show digitsValue ['5', '0'] = 50 from rfl, show digitsValue ['5'] = 5 from rfl])
    (by decide)).1
  norm_num [show digitsValue ['5', '0'] = 50 from rfl, show digitsValue ['5'] = 5 from rfl] at h
  exact h

/-- C5: every string that parses as a number outside the inclusive range
`[0, 100]` is rejected by `from_string` with `InvalidPercentageValue`, for
every precision. -/
theorem c5_out_of_range_rejected (P : Nat) (s : String) (x : ℚ)
    (hx : parseDecimal s = some x) (hout : x < 0 ∨ 100 < x) :
    from_string P s =
      .error ⟨.InvalidPercentageValue, [get_invalid_percentage_error_message P]⟩ :=
  from_string_err_of_out_of_range P s x hx hout

/-- Witness for C5 at the concrete inputs `"150"` and `"-5"` with
`PRECISION = 2`. -/
theorem c5_witness :
    from_string 2 "150" =
      .error ⟨.InvalidPercentageValue, [get_invalid_percentage_error_message 2]⟩ ∧
    from_string 2 "-5" =
      .error ⟨.InvalidPercentageValue, [get_invalid_percentage_error_message 2]⟩ := by
  constructor
  · apply c5_out_of_range_rejected 2 "150" 150
    · simp +decide [parseDecimal, splitExp, stripSign, parseMantissa, splitFrac, digitsValue]
    · norm_num
  · apply c5_out_of_range_rejected 2 "-5" (-5)
    · simp +decide [parseDecimal, splitExp, stripSign, parseMantissa, splitFrac, digitsValue]
    · norm_num

/-- C6: with `PRECISION = 2` the string `"10.123"` is rejected with the
validation error while `"10.120"` is accepted (its trailing fractional zero
is stripped before the precision comparison), and the precision predicate
itself decides the two strings accordingly. -/
theorem c6_precision_trailing_zeros :
    from_string 2 "10.123" =
      .error ⟨.InvalidPercentageValue, [get_invalid_percentage_error_message 2]⟩ ∧
    from_string 2 "10.120" = .ok ⟨253 / 25⟩ ∧
    is_valid_precision_length 2 "10.123" = false ∧
    is_valid_precision_length 2 "10.120" = true := by
  refine ⟨?_, ?_, by decide, by decide⟩
  · simp +decide [from_string, is_valid_string_value, is_valid_float_string, parseDecimal,
      splitExp, stripSign, parseMantissa, splitFrac, parseExpPart, digitsValue, is_valid_range,
      is_valid_precision_length, containsDot, afterLastDot, trimEndZeros]
  · simp +decide [from_string, is_valid_string_value, is_valid_float_string, parseDecimal,
      splitExp, stripSign, parseMantissa, splitFrac, parseExpPart, digitsValue, is_valid_range,
      is_valid_precision_length, containsDot, afterLastDot, trimEndZeros]
    norm_num

/-- C7 counterexample: the unparsable string `"abc"` fails `from_string`
with `InvalidPercentageValue` but with an empty attachment list, so no
message stating the precision requirement accompanies this failure. -/
theorem c7_counterexample :
    from_string 2 "abc" = .error ⟨.InvalidPercentageValue, []⟩ ∧
    get_invalid_percentage_error_message 2 ∉ ([] : List String) := by
  refine ⟨?_, by simp⟩
  simp +decide [from_string, is_valid_string_value, is_valid_float_string, parseDecimal,
    splitExp, stripSign, parseMantissa, splitFrac, parseExpPart, digitsValue]

/-- C7 amended: every failure of `from_string` has context
`InvalidPercentageValue`; a failure of the range or precision check (the
string parsed to a number) carries the message naming the configured
precision, while a parse failure is propagated without that message. -/
theorem c7_amended_error_shape (P : Nat) (s : String) (e : ErrReport ApiModelsError)
    (h : from_string P s = .error e) :
    e.context = .InvalidPercentageValue ∧
    (parseDecimal s = none → e.attachments = []) ∧
    (∀ x, parseDecimal s = some x →
      e.attachments = [get_invalid_percentage_error_message P]) := by
  cases hp : parseDecimal s with
  | none =>
    simp [from_string, is_valid_string_value, is_valid_float_string, hp] at h
    subst h
    exact ⟨rfl, fun _ => rfl, fun x hx => by simp [hp] at hx⟩
  | some x =>
    by_cases hb : (is_valid_range x && is_valid_precision_length P s) = true
    · simp [from_string, is_valid_string_value, is_valid_float_string, hp, hb] at h
    · rw [Bool.not_eq_true] at hb
      simp [from_string, is_valid_string_value, is_valid_float_string, hp, hb] at h
      subst h
      exact ⟨rfl, fun hn => by simp [hp] at hn, fun y _ => rfl⟩

/-- Witness for the amended C7 at the concrete parse failure `"abc"` and
the concrete validation failure `"150"`, both with `PRECISION = 2`. -/
theorem c7_amended_witness :
    (⟨ApiModelsError.InvalidPercentageValue, []⟩ : ErrReport ApiModelsError).attachments
        = [] ∧
    (⟨ApiModelsError.InvalidPercentageValue,
        [get_invalid_percentage_error_message 2]⟩ : ErrReport ApiModelsError).attachments
        = [get_invalid_percentage_error_message 2] := by
  constructor
  · exact (c7_amended_error_shape 2 "abc" ⟨.InvalidPercentageValue, []⟩
      (by simp +decide [from_string, is_valid_string_value, is_valid_float_string, parseDecimal,
        splitExp, stripSign, parseMantissa, splitFrac, parseExpPart, digitsValue])).2.1
      (by simp +decide [parseDecimal, splitExp, stripSign, parseMantissa, splitFrac,
        parseExpPart, digitsValue])
  · apply (c7_amended_error_shape 2 "150"
      ⟨.InvalidPercentageValue, [get_invalid_percentage_error_message 2]⟩ ?_).2.2 150 ?_
    · apply from_string_err_of_out_of_range 2 "150" 150
      · simp +decide [parseDecimal, splitExp, stripSign, parseMantissa, splitFrac, digitsValue]
      · norm_num
    · simp +decide [parseDecimal, splitExp, stripSign, parseMantissa, splitFrac, digitsValue]

/-- C8: a fetch failure (including the engine's not-found signal) is
propagated unchanged with no default substituted; bytes that do not parse
as the target type fail with `JsonDeserializationFailed` carrying the
supplied type name in the diagnostic; and bytes that parse are returned. -/
theorem c8_get_and_deserialize_key_behaviour {T : Type} (db : StorageInterface T)
    (key type_name : String) :
    (∀ e, db.get_key key = .error e →
      get_and_deserialize_key db key type_name = .error e) ∧
    (∀ b, db.get_key key = .ok b → db.parse b = none →
      get_and_deserialize_key db key type_name =
        .error ⟨.JsonDeserializationFailed, ["Unable to parse " ++ type_name]⟩) ∧
    (∀ b t, db.get_key key = .ok b → db.parse b = some t →
      get_and_deserialize_key db key type_name = .ok t) := by
  refine ⟨?_, ?_, ?_⟩
  · intro e he
    simp [get_and_deserialize_key, he]
  · intro b hb hp
    simp [get_and_deserialize_key, parse_struct, hb, hp]
  · intro b t hb hp
    simp [get_and_deserialize_key, parse_struct, hb, hp]

/-- Witness for C8 on the three concrete facades. -/
theorem c8_witness :
    get_and_deserialize_key dbNotFound "k" "PaymentIntent" =
      .error ⟨.NotFound, []⟩ ∧
    get_and_deserialize_key dbBadBytes "k" "PaymentIntent" =
      .error ⟨.JsonDeserializationFailed, ["Unable to parse PaymentIntent"]⟩ ∧
    get_and_deserialize_key dbGood "k" "PaymentIntent" = .ok 7 :=
  ⟨(c8_get_and_deserialize_key_behaviour dbNotFound "k" "PaymentIntent").1
      ⟨.NotFound, []⟩ rfl,
   (c8_get_and_deserialize_key_behaviour dbBadBytes "k" "PaymentIntent").2.1 "xx" rfl rfl,
   (c8_get_and_deserialize_key_behaviour dbGood "k" "PaymentIntent").2.2 "7" 7 rfl rfl⟩

/-- C9: serializing any `Percentage` emits its value as a number, but the
decoder accepts only strings in the `"percentage"` field, so decoding the
type's own output always fails: encode/decode never round-trips. -/
theorem c9_roundtrip_always_fails (P : Nat) (p : Percentage P) :
    deserializePercentage P (serializePercentage p) =
      .error (.invalidType "non-string value" "a string") := by
  simp [deserializePercentage, serializePercentage, visit_map, visit_map_entries,
    nextValueString]

/-- C10: the scientific-notation string `"1e-3"` contains no decimal point,
so the precision check accepts it for every precision; `from_string`
therefore succeeds with the value `0.001` even though, for any precision
below 3, that value cannot be written with so few fractional digits. -/
theorem c10_scientific_notation_bypass (P : Nat) (hP : P < 3) :
    (∀ Q : Nat, from_string Q "1e-3" = .ok ⟨1 / 1000⟩) ∧
    (∀ Q : Nat, is_valid_precision_length Q "1e-3" = true) ∧
    ¬ ∃ n : ℤ, ((1 : ℚ) / 1000) * (10 : ℚ) ^ P = (n : ℚ) := by
  have hparse : parseDecimal "1e-3" = some (1 / 1000) := by
    simp +decide [parseDecimal, splitExp, stripSign, parseMantissa, splitFrac, parseExpPart,
      digitsValue]
    norm_num
  have hprec : ∀ Q : Nat, is_valid_precision_length Q "1e-3" = true := by
    intro Q
    simp +decide [is_valid_precision_length, containsDot]
  refine ⟨?_, hprec, ?_⟩
  · intro Q
    have hrange : is_valid_range (1000⁻¹ : ℚ) = true := by
      simp only [is_valid_range, Bool.and_eq_true, decide_eq_true_eq]
      norm_num
    simp [from_string, is_valid_string_value, is_valid_float_string, hparse, hrange, hprec Q]
  · have hlt : (1 : ℚ) / 1000 * (10 : ℚ) ^ P < 1 := by
      interval_cases P <;> norm_num
    exact not_int_of_pos_lt_one (by positivity) hlt

/-- Witness for C10 at `PRECISION = 0`. -/
theorem c10_witness :
    from_string 0 "1e-3" = .ok ⟨1 / 1000⟩ ∧
    ¬ ∃ n : ℤ, ((1 : ℚ) / 1000) * (10 : ℚ) ^ (0 : ℕ) = (n : ℚ) :=
  ⟨(c10_scientific_notation_bypass 0 (by norm_num)).1 0,
    (c10_scientific_notation_bypass 0 (by norm_num)).2.2⟩
